import Mathlib

/-!
Verification of the `totpdb` encrypted TOTP credential store.

This file shallowly embeds the Go sources of the repository:
  * the crypto layer (`DeriveKey`, `GenerateSalt`, `Encrypt`, `Decrypt`),
    including executable models of the external primitives they call
    (PBKDF2 / HMAC / SHA-256 from golang.org/x/crypto and crypto/sha256,
    AES and GCM from crypto/aes and crypto/cipher);
  * the record store layer (`TOTPEntry`, `TOTPData`, `AddEntry`,
    `FindEntry`, `GetEntry`, `RemoveEntry`);
  * secure persistence (`ReadCBORSec`, `WriteCBORSec`), including an
    executable model of the CBOR serialization performed by
    github.com/fxamacker/cbor/v2 on the `TOTPData` struct.

Go byte slices and strings are modelled as `List Nat` with each element a
byte value; machine words are `Nat` kept below `2 ^ 32` (resp. `2 ^ 64`)
by explicit masking where overflow matters.  Fallible Go functions
returning `(T, error)` are modelled with `Except`.  The ambient source of
randomness (`crypto/rand.Reader`) is modelled as an explicit byte stream
parameter `Nat → Nat`, and the file system as a map from path to file
contents.
-/

deriving instance DecidableEq for Except

namespace TotpDB

/-- Go byte slices / strings: a list of byte values. -/
abbrev ByteStr := List Nat

/-- XOR of two byte strings, truncated to the shorter input, as done by
Go's `subtle.XORBytes` / word-wise xor loops. -/
def xorBytes (a b : ByteStr) : ByteStr := List.zipWith Nat.xor a b

/-- Big-endian serialization of a 32-bit word into 4 bytes
(`binary.BigEndian.PutUint32`). -/
def toBytes4 (w : Nat) : List Nat :=
  [w >>> 24 &&& 255, w >>> 16 &&& 255, w >>> 8 &&& 255, w &&& 255]

/-- Big-endian serialization of a 64-bit word into 8 bytes
(`binary.BigEndian.PutUint64`). -/
def toBytes8 (w : Nat) : List Nat :=
  [w >>> 56 &&& 255, w >>> 48 &&& 255, w >>> 40 &&& 255, w >>> 32 &&& 255,
   w >>> 24 &&& 255, w >>> 16 &&& 255, w >>> 8 &&& 255, w &&& 255]

/-- Big-endian reading of a byte string as an unsigned integer
(`binary.BigEndian.Uint32` / `Uint64` generalized). -/
def beBytesToNat (l : ByteStr) : Nat := l.foldl (fun acc b => acc * 256 + b) 0

/-- Pack four bytes into a big-endian 32-bit word. -/
def word32 (a b c d : Nat) : Nat :=
  ((a &&& 255) <<< 24) ||| ((b &&& 255) <<< 16) ||| ((c &&& 255) <<< 8) ||| (d &&& 255)

@[simp] theorem length_toBytes4 (w : Nat) : (toBytes4 w).length = 4 := rfl

@[simp] theorem length_toBytes8 (w : Nat) : (toBytes8 w).length = 8 := rfl

@[simp] theorem length_xorBytes (a b : ByteStr) :
    (xorBytes a b).length = min a.length b.length := by
  simp [xorBytes]

/-! ### AES block cipher (model of Go `crypto/aes`)

The S-box is computed from its algebraic definition (multiplicative
inverse in GF(2^8) followed by the affine map) rather than transcribed as
a table; the T-tables `te0`–`te3` are derived from the S-box exactly as
in the Go source's table generator. -/

/-- Multiplication by `x` in GF(2^8) modulo the AES polynomial `0x11B`. -/
def xtime (b : Nat) : Nat :=
  if b &&& 128 = 0 then (b <<< 1) &&& 255 else ((b <<< 1) ^^^ 27) &&& 255

/-- GF(2^8) product, Russian-peasant style over 8 bits. -/
def gfMulAux : Nat → Nat → Nat → Nat
  | 0, _, _ => 0
  | n + 1, a, b => (if b &&& 1 = 1 then a else 0) ^^^ gfMulAux n (xtime a) (b >>> 1)

/-- GF(2^8) multiplication of two byte values. -/
def gfMul (a b : Nat) : Nat := gfMulAux 8 a b

/-- GF(2^8) exponentiation. -/
def gfPow (a : Nat) : Nat → Nat
  | 0 => 1
  | n + 1 => gfMul a (gfPow a n)

/-- GF(2^8) multiplicative inverse (with 0 mapped to 0), via `a ^ 254`. -/
def gfInv (a : Nat) : Nat := if a = 0 then 0 else gfPow a 254

/-- Rotate a byte left by `n` bits. -/
def rotl8 (x n : Nat) : Nat := ((x <<< n) ||| (x >>> (8 - n))) &&& 255

/-- The AES S-box: affine transform of the GF(2^8) inverse. -/
def sbox (a : Nat) : Nat :=
  let c := gfInv (a &&& 255)
  c ^^^ rotl8 c 1 ^^^ rotl8 c 2 ^^^ rotl8 c 3 ^^^ rotl8 c 4 ^^^ 99

/-- Powers of `x` in GF(2^8): the `powx` round-constant table of Go's
`crypto/aes`. -/
def powx (i : Nat) : Nat := gfPow 2 i

/-- Encryption T-table `te0`: column `(2s, s, s, 3s)` for `s` the S-box
image, packed big-endian as in Go `crypto/aes`. -/
def te0 (a : Nat) : Nat :=
  let s := sbox a
  word32 (gfMul 2 s) s s (gfMul 3 s)

/-- Encryption T-table `te1` (byte rotation of `te0`). -/
def te1 (a : Nat) : Nat :=
  let s := sbox a
  word32 (gfMul 3 s) (gfMul 2 s) s s

/-- Encryption T-table `te2` (byte rotation of `te0`). -/
def te2 (a : Nat) : Nat :=
  let s := sbox a
  word32 s (gfMul 3 s) (gfMul 2 s) s

/-- Encryption T-table `te3` (byte rotation of `te0`). -/
def te3 (a : Nat) : Nat :=
  let s := sbox a
  word32 s s (gfMul 3 s) (gfMul 2 s)

/-- Apply the S-box to each byte of a 32-bit word (`subw` in Go). -/
def subw (w : Nat) : Nat :=
  word32 (sbox (w >>> 24 &&& 255)) (sbox (w >>> 16 &&& 255))
    (sbox (w >>> 8 &&& 255)) (sbox (w &&& 255))

/-- Rotate a 32-bit word left by one byte (`rotw` in Go). -/
def rotw (w : Nat) : Nat := ((w <<< 8) ||| (w >>> 24)) &&& 4294967295

/-- One step of the AES key schedule (`expandKeyGo` loop body): extend
the word list `w` by one word. -/
def expandKeyStep (nk : Nat) (w : List Nat) : List Nat :=
  let i := w.length
  let t := w.getD (i - 1) 0
  let t :=
    if i % nk = 0 then subw (rotw t) ^^^ (powx (i / nk - 1) <<< 24)
    else if 6 < nk ∧ i % nk = 4 then subw t
    else t
  w ++ [w.getD (i - nk) 0 ^^^ t]

/-- Run `expandKeyStep` a given number of times. -/
def expandKeyLoop (nk : Nat) : Nat → List Nat → List Nat
  | 0, w => w
  | n + 1, w => expandKeyLoop nk n (expandKeyStep nk w)

/-- AES key expansion (`expandKeyGo`, encryption schedule): from the raw
key bytes to the `4 * (nk + 7)` round-key words. -/
def aesExpandKey (key : ByteStr) : List Nat :=
  let nk := key.length / 4
  let init := (List.range nk).map fun i =>
    word32 (key.getD (4 * i) 0) (key.getD (4 * i + 1) 0)
      (key.getD (4 * i + 2) 0) (key.getD (4 * i + 3) 0)
  expandKeyLoop nk (4 * (nk + 7) - nk) init

/-- An AES cipher instance: expanded encryption key schedule and round
count (10/12/14 for 128/192/256-bit keys). -/
structure AESCipher where
  xk : List Nat
  rounds : Nat

/-- One full middle round of AES on the four column words, T-table form
(`encryptBlockGo` loop body), consuming round-key words `k..k+3`. -/
def aesRound (xk : List Nat) (k : Nat) (s : Nat × Nat × Nat × Nat) :
    Nat × Nat × Nat × Nat :=
  (xk.getD k 0 ^^^ te0 (s.1 >>> 24 &&& 255) ^^^ te1 (s.2.1 >>> 16 &&& 255) ^^^
      te2 (s.2.2.1 >>> 8 &&& 255) ^^^ te3 (s.2.2.2 &&& 255),
   xk.getD (k + 1) 0 ^^^ te0 (s.2.1 >>> 24 &&& 255) ^^^ te1 (s.2.2.1 >>> 16 &&& 255) ^^^
      te2 (s.2.2.2 >>> 8 &&& 255) ^^^ te3 (s.1 &&& 255),
   xk.getD (k + 2) 0 ^^^ te0 (s.2.2.1 >>> 24 &&& 255) ^^^ te1 (s.2.2.2 >>> 16 &&& 255) ^^^
      te2 (s.1 >>> 8 &&& 255) ^^^ te3 (s.2.1 &&& 255),
   xk.getD (k + 3) 0 ^^^ te0 (s.2.2.2 >>> 24 &&& 255) ^^^ te1 (s.1 >>> 16 &&& 255) ^^^
      te2 (s.2.1 >>> 8 &&& 255) ^^^ te3 (s.2.2.1 &&& 255))

/-- Iterate the middle rounds. -/
def aesRoundLoop (xk : List Nat) : Nat → Nat → Nat × Nat × Nat × Nat →
    Nat × Nat × Nat × Nat
  | 0, _, s => s
  | n + 1, k, s => aesRoundLoop xk n (k + 4) (aesRound xk k s)

/-- The AES final round (S-box substitution, row shift, round-key xor)
producing one output word. -/
def aesFinalWord (xk : List Nat) (k : Nat) (a b c d : Nat) : Nat :=
  word32 (sbox (a >>> 24 &&& 255)) (sbox (b >>> 16 &&& 255))
      (sbox (c >>> 8 &&& 255)) (sbox (d &&& 255)) ^^^ xk.getD k 0

/-- AES block encryption (`encryptBlockGo`): 16 input bytes to 16 output
bytes under the expanded key. -/
def encryptBlock (c : AESCipher) (src : ByteStr) : ByteStr :=
  let s0 := word32 (src.getD 0 0) (src.getD 1 0) (src.getD 2 0) (src.getD 3 0) ^^^
    c.xk.getD 0 0
  let s1 := word32 (src.getD 4 0) (src.getD 5 0) (src.getD 6 0) (src.getD 7 0) ^^^
    c.xk.getD 1 0
  let s2 := word32 (src.getD 8 0) (src.getD 9 0) (src.getD 10 0) (src.getD 11 0) ^^^
    c.xk.getD 2 0
  let s3 := word32 (src.getD 12 0) (src.getD 13 0) (src.getD 14 0) (src.getD 15 0) ^^^
    c.xk.getD 3 0
  let t := aesRoundLoop c.xk (c.rounds - 1) 4 (s0, s1, s2, s3)
  let k := 4 * c.rounds
  toBytes4 (aesFinalWord c.xk k t.1 t.2.1 t.2.2.1 t.2.2.2) ++
    toBytes4 (aesFinalWord c.xk (k + 1) t.2.1 t.2.2.1 t.2.2.2 t.1) ++
    toBytes4 (aesFinalWord c.xk (k + 2) t.2.2.1 t.2.2.2 t.1 t.2.1) ++
    toBytes4 (aesFinalWord c.xk (k + 3) t.2.2.2 t.1 t.2.1 t.2.2.1)

@[simp] theorem length_encryptBlock (c : AESCipher) (src : ByteStr) :
    (encryptBlock c src).length = 16 := by
  simp [encryptBlock]

/-! ### GCM mode (model of Go `crypto/cipher` GCM over AES)

Faithful to `crypto/cipher/gcm.go` with the standard nonce size 12 and
tag size 16.  Go's astronomically-large-input guards (inputs above
`2^32` blocks), unreachable for any allocatable plaintext, are omitted. -/

/-- Serialize a 128-bit value into 16 big-endian bytes. -/
def natToBytes16 (n : Nat) : ByteStr := toBytes8 (n >>> 64) ++ toBytes8 n

@[simp] theorem length_natToBytes16 (n : Nat) : (natToBytes16 n).length = 16 := rfl

/-- One step of GHASH multiplication in GF(2^128): the accumulator pair
is `(Z, V)`; bit `i` (from the most significant) of `y` selects whether
`V` is folded into `Z`, then `V` is shifted with reduction by the GCM
polynomial. -/
def gfMul128 (x y : Nat) : Nat :=
  ((List.range 128).foldl
    (fun zv i =>
      ((if (y >>> (127 - i)) &&& 1 = 1 then zv.1 ^^^ zv.2 else zv.1),
       (if zv.2 &&& 1 = 1 then (zv.2 >>> 1) ^^^ (225 <<< 120) else zv.2 >>> 1)))
    (0, x)).1

/-- GHASH over complete 16-byte blocks: fold `Y := (Y xor block) * H`. -/
def ghashAux (h y : Nat) (l : ByteStr) : Nat :=
  if l = [] then y
  else ghashAux h (gfMul128 (y ^^^ beBytesToNat (l.take 16)) h) (l.drop 16)
termination_by l.length
decreasing_by
  simp only [List.length_drop]
  have : l.length ≠ 0 := by simpa [List.length_eq_zero] using by assumption
  omega

/-- Pad a byte string with zeros to a multiple of 16 bytes. -/
def pad16 (l : ByteStr) : ByteStr :=
  l ++ List.replicate ((16 - l.length % 16) % 16) 0

/-- Increment the last 32 bits of the 16-byte GCM counter
(`gcmInc32`). -/
def gcmInc32 (ctr : ByteStr) : ByteStr :=
  ctr.take 12 ++ toBytes4 ((beBytesToNat (ctr.drop 12) + 1) % 4294967296)

/-- GCM CTR-mode keystream application (`gcmCounterCryptGeneric`): xor
the input with successive encrypted counter blocks. -/
def counterCrypt (c : AESCipher) (ctr : ByteStr) (src : ByteStr) : ByteStr :=
  if src = [] then []
  else xorBytes (src.take 16) (encryptBlock c ctr) ++
    counterCrypt c (gcmInc32 ctr) (src.drop 16)
termination_by src.length
decreasing_by
  simp only [List.length_drop]
  have : src.length ≠ 0 := by simpa [List.length_eq_zero] using by assumption
  omega

/-- The GCM authentication tag over ciphertext `ct` with empty
additional data: `GHASH_H(pad(ct) ‖ len64(aad) ‖ len64(ct)) xor E(J0)`,
with `H = E(0^16)` and `J0 = nonce ‖ 0^3 ‖ 1`. -/
def gcmTag (c : AESCipher) (nonce ct : ByteStr) : ByteStr :=
  let h := beBytesToNat (encryptBlock c (List.replicate 16 0))
  let j0 := nonce ++ [0, 0, 0, 1]
  let s := ghashAux h 0 (pad16 ct ++ toBytes8 0 ++ toBytes8 (8 * ct.length))
  xorBytes (natToBytes16 s) (encryptBlock c j0)

/-- GCM seal (`gcm.Seal` without the destination prefix): ciphertext
followed by the 16-byte tag. -/
def gcmSeal (c : AESCipher) (nonce pt : ByteStr) : ByteStr :=
  let j0 := nonce ++ [0, 0, 0, 1]
  let ct := counterCrypt c (gcmInc32 j0) pt
  ct ++ gcmTag c nonce ct

/-- Errors surfaced by the crypto layer: Go error values
`aes.KeySizeError`, the literal `"ciphertext too short"` error of
`Decrypt`, and `crypto/cipher`'s `errOpen`
(`"cipher: message authentication failed"`). -/
inductive CryptoError
  | invalidKeySize
  | ciphertextTooShort
  | msgAuthFailed
deriving DecidableEq

/-- GCM open (`gcm.Open`): split off the 16-byte tag, recompute the
expected tag, compare, and decrypt on success.  Any tag-verification
failure (including input shorter than the tag) yields the single
`errOpen` value. -/
def gcmOpen (c : AESCipher) (nonce data : ByteStr) : Except CryptoError ByteStr :=
  if data.length < 16 then .error .msgAuthFailed
  else
    let tag := data.drop (data.length - 16)
    let ct := data.take (data.length - 16)
    if gcmTag c nonce ct = tag then
      .ok (counterCrypt c (gcmInc32 (nonce ++ [0, 0, 0, 1])) ct)
    else .error .msgAuthFailed

/-- Model of `aes.NewCipher`: key expansion succeeds exactly for key
lengths 16, 24 and 32; any other length is a `KeySizeError`. -/
def aesNewCipher (key : ByteStr) : Except CryptoError AESCipher :=
  if key.length = 16 ∨ key.length = 24 ∨ key.length = 32 then
    .ok ⟨aesExpandKey key, key.length / 4 + 6⟩
  else .error .invalidKeySize

/-- The 12 nonce bytes drawn from the random stream by `Encrypt`'s
`io.ReadFull(rand.Reader, nonce)`. -/
def drawNonce (stream : Nat → Nat) : ByteStr :=
  (List.range 12).map fun i => stream i % 256

@[simp] theorem length_drawNonce (stream : Nat → Nat) :
    (drawNonce stream).length = 12 := by simp [drawNonce]

/-- Source `Encrypt` (part_000 lines 49–71): build the AES-GCM cipher,
draw a fresh random nonce, and return `nonce ‖ ciphertext ‖ tag`
(`aesGCM.Seal(nonce, nonce, src, nil)`).  The random source is the
explicit `stream` parameter and never fails. -/
def Encrypt (src key : ByteStr) (stream : Nat → Nat) : Except CryptoError ByteStr :=
  match aesNewCipher key with
  | .error e => .error e
  | .ok c =>
    let nonce := drawNonce stream
    .ok (nonce ++ gcmSeal c nonce src)

/-- Source `Decrypt` (part_000 lines 85–116): build the AES-GCM cipher,
reject inputs shorter than the 12-byte nonce with the dedicated
`"ciphertext too short"` error, split `nonce ‖ rest`, and open. -/
def Decrypt (src key : ByteStr) : Except CryptoError ByteStr :=
  match aesNewCipher key with
  | .error e => .error e
  | .ok c =>
    if src.length < 12 then .error .ciphertextTooShort
    else gcmOpen c (src.take 12) (src.drop 12)

/-! ### SHA-256, HMAC-SHA-256 and PBKDF2 (models of `crypto/sha256`,
`crypto/hmac` and `golang.org/x/crypto/pbkdf2`) -/

/-- Rotation right of a 32-bit word. -/
def rotr32 (x n : Nat) : Nat := ((x >>> n) ||| (x <<< (32 - n))) &&& 4294967295

/-- SHA-256 initial hash values. -/
def shaH0 : List Nat :=
  [1779033703, 3144134277, 1013904242, 2773480762,
   1359893119, 2600822924, 528734635, 1541459225]

/-- SHA-256 round constants. -/
def shaK : List Nat :=
  [1116352408, 1899447441, 3049323471, 3921009573,
   961987163, 1508970993, 2453635748, 2870763221,
   3624381080, 310598401, 607225278, 1426881987,
   1925078388, 2162078206, 2614888103, 3248222580,
   3835390401, 4022224774, 264347078, 604807628,
   770255983, 1249150122, 1555081692, 1996064986,
   2554220882, 2821834349, 2952996808, 3210313671,
   3336571891, 3584528711, 113926993, 338241895,
   666307205, 773529912, 1294757372, 1396182291,
   1695183700, 1986661051, 2177026350, 2456956037,
   2730485921, 2820302411, 3259730800, 3345764771,
   3516065817, 3600352804, 4094571909, 275423344,
   430227734, 506948616, 659060556, 883997877,
   958139571, 1322822218, 1537002063, 1747873779,
   1955562222, 2024104815, 2227730452, 2361852424,
   2428436474, 2756734187, 3204031479, 3329325298]

/-- The first sixteen 32-bit message-schedule words of a 64-byte chunk. -/
def chunkWords (c : ByteStr) : List Nat :=
  (List.range 16).map fun i =>
    word32 (c.getD (4 * i) 0) (c.getD (4 * i + 1) 0)
      (c.getD (4 * i + 2) 0) (c.getD (4 * i + 3) 0)

/-- Extend the message schedule by one word. -/
def shaExtendStep (w : List Nat) : List Nat :=
  let i := w.length
  let s0 := rotr32 (w.getD (i - 15) 0) 7 ^^^ rotr32 (w.getD (i - 15) 0) 18 ^^^
    (w.getD (i - 15) 0 >>> 3)
  let s1 := rotr32 (w.getD (i - 2) 0) 17 ^^^ rotr32 (w.getD (i - 2) 0) 19 ^^^
    (w.getD (i - 2) 0 >>> 10)
  w ++ [(w.getD (i - 16) 0 + s0 + w.getD (i - 7) 0 + s1) % 4294967296]

/-- Extend the message schedule `n` times. -/
def shaExtend (w : List Nat) : Nat → List Nat
  | 0 => w
  | n + 1 => shaExtendStep (shaExtend w n)

/-- One SHA-256 compression round: the state is the word list
`[a, b, c, d, e, f, g, h]`. -/
def shaRound (st : List Nat) (ki wi : Nat) : List Nat :=
  let a := st.getD 0 0
  let b := st.getD 1 0
  let c := st.getD 2 0
  let d := st.getD 3 0
  let e := st.getD 4 0
  let f := st.getD 5 0
  let g := st.getD 6 0
  let h := st.getD 7 0
  let s1 := rotr32 e 6 ^^^ rotr32 e 11 ^^^ rotr32 e 25
  let ch := (e &&& f) ^^^ ((e ^^^ 4294967295) &&& g)
  let t1 := (h + s1 + ch + ki + wi) % 4294967296
  let s0 := rotr32 a 2 ^^^ rotr32 a 13 ^^^ rotr32 a 22
  let mj := (a &&& b) ^^^ (a &&& c) ^^^ (b &&& c)
  let t2 := (s0 + mj) % 4294967296
  [(t1 + t2) % 4294967296, a, b, c, (d + t1) % 4294967296, e, f, g]

/-- Compress one 64-byte chunk into the running hash state. -/
def shaBlock (h : List Nat) (chunk : ByteStr) : List Nat :=
  let w := shaExtend (chunkWords chunk) 48
  let st := (List.zip shaK w).foldl (fun st kw => shaRound st kw.1 kw.2) h
  List.zipWith (fun x y => (x + y) % 4294967296) h st

/-- Fold `shaBlock` over all 64-byte chunks. -/
def shaBlocksLoop (h : List Nat) (msg : ByteStr) : List Nat :=
  if msg = [] then h
  else shaBlocksLoop (shaBlock h (msg.take 64)) (msg.drop 64)
termination_by msg.length
decreasing_by
  simp only [List.length_drop]
  have : msg.length ≠ 0 := by simpa [List.length_eq_zero] using by assumption
  omega

/-- SHA-256 padding: `0x80`, zeros to 56 mod 64, then the 64-bit
big-endian bit length. -/
def shaPad (msg : ByteStr) : ByteStr :=
  msg ++ [128] ++ List.replicate ((64 - (msg.length + 9) % 64) % 64) 0 ++
    toBytes8 (8 * msg.length)

/-- SHA-256 of a byte string (model of `crypto/sha256`). -/
def sha256 (msg : ByteStr) : ByteStr :=
  let h := shaBlocksLoop shaH0 (shaPad msg)
  toBytes4 (h.getD 0 0) ++ toBytes4 (h.getD 1 0) ++ toBytes4 (h.getD 2 0) ++
    toBytes4 (h.getD 3 0) ++ toBytes4 (h.getD 4 0) ++ toBytes4 (h.getD 5 0) ++
    toBytes4 (h.getD 6 0) ++ toBytes4 (h.getD 7 0)

@[simp] theorem length_sha256 (msg : ByteStr) : (sha256 msg).length = 32 := by
  simp [sha256]

/-- HMAC-SHA-256 (model of `crypto/hmac` with `sha256.New`). -/
def hmacSha256 (key msg : ByteStr) : ByteStr :=
  let k0 := if 64 < key.length then sha256 key else key
  let k := k0 ++ List.replicate (64 - k0.length) 0
  sha256 ((k.map fun b => b ^^^ 92) ++ sha256 ((k.map fun b => b ^^^ 54) ++ msg))

@[simp] theorem length_hmacSha256 (key msg : ByteStr) :
    (hmacSha256 key msg).length = 32 := by
  simp [hmacSha256]

/-- The inner PBKDF2 loop: iterate `U := prf U` and accumulate
`T := T xor U`. -/
def pbkdf2Iter (prf : ByteStr → ByteStr) : Nat → ByteStr × ByteStr → ByteStr × ByteStr
  | 0, tu => tu
  | n + 1, tu =>
    let u := prf tu.2
    pbkdf2Iter prf n (xorBytes tu.1 u, u)

/-- One PBKDF2 output block `T_idx` (`golang.org/x/crypto/pbkdf2` inner
loop over `iter` applications of the PRF). -/
def pbkdf2Block (prf : ByteStr → ByteStr) (salt : ByteStr) (iter idx : Nat) : ByteStr :=
  let u1 := prf (salt ++ toBytes4 idx)
  (pbkdf2Iter prf (iter - 1) (u1, u1)).1

/-- Concatenation of PBKDF2 blocks `T_1 ‖ … ‖ T_n`. -/
def pbkdf2Blocks (prf : ByteStr → ByteStr) (salt : ByteStr) (iter : Nat) :
    Nat → ByteStr
  | 0 => []
  | n + 1 => pbkdf2Blocks prf salt iter n ++ pbkdf2Block prf salt iter (n + 1)

/-- PBKDF2 (model of `pbkdf2.Key`): derive `keyLen` bytes from the PRF,
salt and iteration count, with `hashLen` the PRF output size. -/
def pbkdf2 (prf : ByteStr → ByteStr) (salt : ByteStr) (iter keyLen hashLen : Nat) :
    ByteStr :=
  let numBlocks := (keyLen + hashLen - 1) / hashLen
  (pbkdf2Blocks prf salt iter numBlocks).take keyLen

/-- Source `DeriveKey` (part_000 lines 26–29):
`pbkdf2.Key(password, salt, 4096, keyLen, sha256.New)`. -/
def DeriveKey (password salt : ByteStr) (keyLen : Nat) : ByteStr :=
  pbkdf2 (hmacSha256 password) salt 4096 keyLen 32

/-- Source `GenerateSalt` (part_000 lines 32–35): SHA-256 of the input
string. -/
def GenerateSalt (input : ByteStr) : ByteStr := sha256 input

/-! ### The record store (model of `totpdb` in part_001)

Go strings are byte strings.  The `Type` field of `TOTPEntry` is named
`Typ` here because `Type` is reserved in Lean.  Go's nil-slice lazy
allocation in `AddEntry` is invisible in this model: a `List` is always
present and the nil and empty slices are observationally equal.
`AddEntry` is modelled on the already-converted `TOTPEntry` (the
`FromOTPKey` conversion from the external `*otp.Key` is outside the
store's logic), and the Go methods' receiver mutation becomes explicit
state passing: mutators return the updated `TOTPData` (paired with the
Go error result). -/

/-- Source `TOTPEntry` (part_001 lines 144–153). -/
structure TOTPEntry where
  Issuer : ByteStr
  AccountName : ByteStr
  Secret : ByteStr
  Typ : ByteStr
  Period : Nat
  Digits : Int
  Algorithm : ByteStr
  URL : ByteStr
deriving DecidableEq

/-- Source `TOTPData` (part_001 lines 139–141). -/
structure TOTPData where
  Entries : List TOTPEntry
deriving DecidableEq

/-- The two sentinel errors of the store (part_001 lines 131–134). -/
inductive StoreError
  | entryExists
  | entryNotFound
deriving DecidableEq

/-- The `FindEntry` matching rule as a boolean predicate on one entry:
the account name must match, and the issuer must match unless the probe
issuer is empty (in which case any issuer is accepted). -/
def entryMatches (name issuer : ByteStr) (e : TOTPEntry) : Bool :=
  e.AccountName = name ∧ (issuer = [] ∨ e.Issuer = issuer)

/-- The scanning loop of `FindEntry`, carrying the index of the head of
the remaining list. -/
def findEntryAux (name issuer : ByteStr) : List TOTPEntry → Nat →
    Except StoreError Nat
  | [], _ => .error .entryNotFound
  | e :: rest, i =>
    if e.AccountName = name then
      if issuer = [] then .ok i
      else if e.Issuer = issuer then .ok i
      else findEntryAux name issuer rest (i + 1)
    else findEntryAux name issuer rest (i + 1)

/-- Source `FindEntry` (part_001 lines 188–199): linear scan returning
the first index matching the composite-key rule, or `ErrEntryNotFound`.
The Go `-1` returned alongside the error is carried by the `Except`
error branch. -/
def FindEntry (data : TOTPData) (name issuer : ByteStr) : Except StoreError Nat :=
  findEntryAux name issuer data.Entries 0

/-- Source `AddEntry` (part_001 lines 170–185): reject when `FindEntry`
on the new entry's own (account, issuer) succeeds, otherwise append at
the end.  The returned pair is (resulting data, Go error result). -/
def AddEntry (data : TOTPData) (ent : TOTPEntry) : TOTPData × Option StoreError :=
  match FindEntry data ent.AccountName ent.Issuer with
  | .error _ => ({ Entries := data.Entries ++ [ent] }, none)
  | .ok _ => (data, some .entryExists)

/-- Source `GetEntry` (part_001 lines 202–209). -/
def GetEntry (data : TOTPData) (name issuer : ByteStr) :
    Except StoreError TOTPEntry :=
  match FindEntry data name issuer with
  | .error e => .error e
  | .ok ind => .ok (data.Entries.getD ind ⟨[], [], [], [], 0, 0, [], []⟩)

/-- Source `RemoveEntry` (part_001 lines 212–219): locate via
`FindEntry`, then `append(Entries[:index], Entries[index+1:]...)`. -/
def RemoveEntry (data : TOTPData) (name issuer : ByteStr) :
    Except StoreError TOTPData :=
  match FindEntry data name issuer with
  | .error e => .error e
  | .ok index =>
    .ok { Entries := data.Entries.take index ++ data.Entries.drop (index + 1) }

/-! ### CBOR serialization (model of github.com/fxamacker/cbor/v2 on
`TOTPData`)

The encoder produces exactly the bytes `cbor.Marshal` produces for this
struct: a one-entry map `"Entries" ↦ array of entries`, each entry a
map of the eight tagged fields in struct order, heads in shortest form.
The decoder parses definite-length heads (the only forms the encoder
emits; indefinite-length and the reserved additional-information values
are rejected) and fills entry fields by key name. -/

/-- ASCII bytes of the CBOR key "issuer". -/
def keyIssuer : ByteStr := [105, 115, 115, 117, 101, 114]

/-- ASCII bytes of the CBOR key "account_name". -/
def keyAccountName : ByteStr := [97, 99, 99, 111, 117, 110, 116, 95, 110, 97, 109, 101]

/-- ASCII bytes of the CBOR key "secret". -/
def keySecret : ByteStr := [115, 101, 99, 114, 101, 116]

/-- ASCII bytes of the CBOR key "type". -/
def keyType : ByteStr := [116, 121, 112, 101]

/-- ASCII bytes of the CBOR key "period". -/
def keyPeriod : ByteStr := [112, 101, 114, 105, 111, 100]

/-- ASCII bytes of the CBOR key "digits". -/
def keyDigits : ByteStr := [100, 105, 103, 105, 116, 115]

/-- ASCII bytes of the CBOR key "algorithm". -/
def keyAlgorithm : ByteStr := [97, 108, 103, 111, 114, 105, 116, 104, 109]

/-- ASCII bytes of the CBOR key "url". -/
def keyURL : ByteStr := [117, 114, 108]

/-- ASCII bytes of the CBOR key "Entries" (the untagged Go field name). -/
def keyEntries : ByteStr := [69, 110, 116, 114, 105, 101, 115]

/-- A CBOR head: major type and argument, in shortest (canonical)
form, as emitted by fxamacker/cbor for arguments below `2 ^ 64`. -/
def encHead (major n : Nat) : ByteStr :=
  if n < 24 then [32 * major + n]
  else if n < 256 then [32 * major + 24, n]
  else if n < 65536 then [32 * major + 25, n / 256, n % 256]
  else if n < 4294967296 then
    [32 * major + 26, n / 16777216, n / 65536 % 256, n / 256 % 256, n % 256]
  else
    [32 * major + 27, n / 72057594037927936 % 256, n / 281474976710656 % 256,
     n / 1099511627776 % 256, n / 4294967296 % 256, n / 16777216 % 256,
     n / 65536 % 256, n / 256 % 256, n % 256]

/-- CBOR unsigned integer (major type 0). -/
def encUint (n : Nat) : ByteStr := encHead 0 n

/-- CBOR signed integer: major type 0 for non-negative values, major
type 1 carrying `-1 - i` otherwise. -/
def encInt (i : Int) : ByteStr :=
  if 0 ≤ i then encHead 0 i.toNat else encHead 1 (-1 - i).toNat

/-- CBOR text string (major type 3): head with the byte length, then
the bytes. -/
def encTextStr (s : ByteStr) : ByteStr := encHead 3 s.length ++ s

/-- CBOR encoding of one `TOTPEntry`: an 8-pair map with the `cbor`
struct-tag keys in struct order. -/
def encEntry (e : TOTPEntry) : ByteStr :=
  encHead 5 8 ++
    encTextStr keyIssuer ++ encTextStr e.Issuer ++
    encTextStr keyAccountName ++ encTextStr e.AccountName ++
    encTextStr keySecret ++ encTextStr e.Secret ++
    encTextStr keyType ++ encTextStr e.Typ ++
    encTextStr keyPeriod ++ encUint e.Period ++
    encTextStr keyDigits ++ encInt e.Digits ++
    encTextStr keyAlgorithm ++ encTextStr e.Algorithm ++
    encTextStr keyURL ++ encTextStr e.URL

/-- Concatenated encodings of a list of entries. -/
def encEntries : List TOTPEntry → ByteStr
  | [] => []
  | e :: es => encEntry e ++ encEntries es

/-- CBOR encoding of `TOTPData` (`cbor.Marshal` on the struct): the map
`\x7b "Entries": [entries...] \x7d`. -/
def cborEncodeTOTPData (d : TOTPData) : ByteStr :=
  encHead 5 1 ++ encTextStr keyEntries ++ encHead 4 d.Entries.length ++
    encEntries d.Entries

/-- Decode-side errors of the CBOR model. -/
inductive CBORError
  | truncated
  | badHead
  | unexpectedType
  | unknownField
deriving DecidableEq

/-- Parse a CBOR head: one initial byte and the definite-length
argument it announces.  Returns `((major, argument), rest)`. -/
def parseHead : ByteStr → Except CBORError ((Nat × Nat) × ByteStr)
  | [] => .error .truncated
  | b :: rest =>
    let major := b / 32
    let info := b % 32
    if info < 24 then .ok ((major, info), rest)
    else if info = 24 then
      match rest with
      | b1 :: r => .ok ((major, b1), r)
      | [] => .error .truncated
    else if info = 25 then
      match rest with
      | b1 :: b2 :: r => .ok ((major, b1 * 256 + b2), r)
      | _ => .error .truncated
    else if info = 26 then
      match rest with
      | b1 :: b2 :: b3 :: b4 :: r =>
        .ok ((major, ((b1 * 256 + b2) * 256 + b3) * 256 + b4), r)
      | _ => .error .truncated
    else if info = 27 then
      match rest with
      | b1 :: b2 :: b3 :: b4 :: b5 :: b6 :: b7 :: b8 :: r =>
        .ok ((major,
          ((((((b1 * 256 + b2) * 256 + b3) * 256 + b4) * 256 + b5) * 256 + b6) *
            256 + b7) * 256 + b8), r)
      | _ => .error .truncated
    else .error .badHead

/-- Parse a CBOR text string. -/
def parseTextStr (l : ByteStr) : Except CBORError (ByteStr × ByteStr) :=
  match parseHead l with
  | .error e => .error e
  | .ok ((major, n), r) =>
    if major = 3 then
      if r.length < n then .error .truncated else .ok (r.take n, r.drop n)
    else .error .unexpectedType

/-- Parse a CBOR unsigned integer (for the `uint64` field). -/
def parseUint64 (l : ByteStr) : Except CBORError (Nat × ByteStr) :=
  match parseHead l with
  | .error e => .error e
  | .ok ((major, n), r) =>
    if major = 0 then .ok (n, r) else .error .unexpectedType

/-- Parse a CBOR signed integer (for the `int` field). -/
def parseInt64 (l : ByteStr) : Except CBORError (Int × ByteStr) :=
  match parseHead l with
  | .error e => .error e
  | .ok ((major, n), r) =>
    if major = 0 then .ok (Int.ofNat n, r)
    else if major = 1 then .ok (-1 - Int.ofNat n, r)
    else .error .unexpectedType

/-- The all-zero entry: Go's zero value, the accumulator the struct
decoder starts from. -/
def emptyEntry : TOTPEntry := ⟨[], [], [], [], 0, 0, [], []⟩

/-- Decode one map pair's value into the entry field selected by the
key, mirroring the struct decoder's field dispatch on the `cbor` tags. -/
def setField (e : TOTPEntry) (key : ByteStr) (l : ByteStr) :
    Except CBORError (TOTPEntry × ByteStr) :=
  if key = keyIssuer then
    match parseTextStr l with
    | .error er => .error er
    | .ok (s, r) => .ok ({ e with Issuer := s }, r)
  else if key = keyAccountName then
    match parseTextStr l with
    | .error er => .error er
    | .ok (s, r) => .ok ({ e with AccountName := s }, r)
  else if key = keySecret then
    match parseTextStr l with
    | .error er => .error er
    | .ok (s, r) => .ok ({ e with Secret := s }, r)
  else if key = keyType then
    match parseTextStr l with
    | .error er => .error er
    | .ok (s, r) => .ok ({ e with Typ := s }, r)
  else if key = keyPeriod then
    match parseUint64 l with
    | .error er => .error er
    | .ok (n, r) => .ok ({ e with Period := n }, r)
  else if key = keyDigits then
    match parseInt64 l with
    | .error er => .error er
    | .ok (i, r) => .ok ({ e with Digits := i }, r)
  else if key = keyAlgorithm then
    match parseTextStr l with
    | .error er => .error er
    | .ok (s, r) => .ok ({ e with Algorithm := s }, r)
  else if key = keyURL then
    match parseTextStr l with
    | .error er => .error er
    | .ok (s, r) => .ok ({ e with URL := s }, r)
  else .error .unknownField

/-- Parse `n` key/value pairs of one entry's map. -/
def parseFields : Nat → TOTPEntry → ByteStr →
    Except CBORError (TOTPEntry × ByteStr)
  | 0, e, l => .ok (e, l)
  | n + 1, e, l =>
    match parseTextStr l with
    | .error er => .error er
    | .ok (k, r) =>
      match setField e k r with
      | .error er => .error er
      | .ok (e', r') => parseFields n e' r'

/-- Parse one entry: a map head, then its pairs. -/
def parseEntry (l : ByteStr) : Except CBORError (TOTPEntry × ByteStr) :=
  match parseHead l with
  | .error e => .error e
  | .ok ((major, n), r) =>
    if major = 5 then parseFields n emptyEntry r else .error .unexpectedType

/-- Parse `n` consecutive entries. -/
def parseEntryList : Nat → ByteStr → Except CBORError (List TOTPEntry × ByteStr)
  | 0, l => .ok ([], l)
  | n + 1, l =>
    match parseEntry l with
    | .error e => .error e
    | .ok (e, r) =>
      match parseEntryList n r with
      | .error er => .error er
      | .ok (es, r') => .ok (e :: es, r')

/-- CBOR decoding of `TOTPData` (the `cbor.NewDecoder(...).Decode` call
of `ReadCBORSec`): one map with the single key "Entries" holding an
array of entries.  Trailing bytes after the decoded value are ignored,
as by a stream decoder reading one value. -/
def cborDecodeTOTPData (l : ByteStr) : Except CBORError TOTPData :=
  match parseHead l with
  | .error e => .error e
  | .ok ((major, n), r) =>
    if major = 5 ∧ n = 1 then
      match parseTextStr r with
      | .error e => .error e
      | .ok (k, r') =>
        if k = keyEntries then
          match parseHead r' with
          | .error e => .error e
          | .ok ((m2, cnt), r2) =>
            if m2 = 4 then
              match parseEntryList cnt r2 with
              | .error e => .error e
              | .ok (es, _) => .ok ⟨es⟩
            else .error .unexpectedType
        else .error .unknownField
    else .error .unexpectedType

/-! ### Secure persistence (`ReadCBORSec` / `WriteCBORSec`)

The file system is a map from path to file contents; `os.ReadFile` on a
missing path is the file-not-found error, `os.WriteFile` replaces the
contents at the path. -/

/-- The file system: contents by path, `none` when the file does not
exist. -/
def FileSys := String → Option ByteStr

/-- Failure cases of `ReadCBORSec`: missing file (`os.ReadFile`),
decryption failure (`Decrypt`), or CBOR decode failure. -/
inductive DBError
  | fileNotFound
  | cryptoErr (e : CryptoError)
  | decodeErr (e : CBORError)
deriving DecidableEq

/-- Source `WriteCBORSec` (part_001 lines 268–287): CBOR-encode the
data, derive a 32-byte key from password and salt, encrypt, and write
the blob to `filename` (plain `os.WriteFile`, no temporary file).  The
random stream feeds the encryption nonce; the updated file system is
returned. -/
def WriteCBORSec (fs : FileSys) (filename : String) (data : TOTPData)
    (password salt : ByteStr) (stream : Nat → Nat) :
    Except CryptoError FileSys :=
  let buf := cborEncodeTOTPData data
  let key := DeriveKey password salt 32
  (Encrypt buf key stream).map fun encryptedData p =>
    if p = filename then some encryptedData else fs p

/-- Source `ReadCBORSec` (part_001 lines 241–265): read the file,
derive the key, decrypt, and CBOR-decode. -/
def ReadCBORSec (fs : FileSys) (filename : String) (password salt : ByteStr) :
    Except DBError TOTPData :=
  match fs filename with
  | none => .error .fileNotFound
  | some encryptedData =>
    let key := DeriveKey password salt 32
    ((Decrypt encryptedData key).mapError DBError.cryptoErr).bind fun data =>
      (cborDecodeTOTPData data).mapError DBError.decodeErr

/-! ### Validity bounds

Go values are machine-bounded: string and slice lengths and the
`uint64` field fit in 64 bits, and the `int` field in a signed 64-bit
word.  The CBOR head model encodes arguments below `2 ^ 64`, so the
round-trip theorems carry these (always-true-in-Go) bounds as explicit
hypotheses. -/

/-- A byte-string field small enough for a CBOR 8-byte head. -/
def ValidStr (s : ByteStr) : Prop := s.length < 18446744073709551616

instance (s : ByteStr) : Decidable (ValidStr s) := by
  unfold ValidStr; infer_instance

/-- All fields of an entry within Go's machine bounds. -/
def ValidEntry (e : TOTPEntry) : Prop :=
  ValidStr e.Issuer ∧ ValidStr e.AccountName ∧ ValidStr e.Secret ∧
    ValidStr e.Typ ∧ e.Period < 18446744073709551616 ∧
    -9223372036854775808 ≤ e.Digits ∧ e.Digits < 9223372036854775808 ∧
    ValidStr e.Algorithm ∧ ValidStr e.URL

instance (e : TOTPEntry) : Decidable (ValidEntry e) := by
  unfold ValidEntry; infer_instance

/-- A collection within Go's machine bounds. -/
def ValidData (d : TOTPData) : Prop :=
  d.Entries.length < 18446744073709551616 ∧ ∀ e ∈ d.Entries, ValidEntry e

instance (d : TOTPData) : Decidable (ValidData d) := by
  unfold ValidData; infer_instance

/-! ### Store-layer lemmas: `FindEntry` as a first-match search -/

theorem findEntryAux_eq (name issuer : ByteStr) (es : List TOTPEntry) (k : Nat) :
    findEntryAux name issuer es k =
      match es.findIdx? (entryMatches name issuer) with
      | some m => .ok (k + m)
      | none => .error .entryNotFound := by
  induction es generalizing k with
  | nil => simp [findEntryAux, List.findIdx?_nil]
  | cons e rest ih =>
    by_cases hacc : e.AccountName = name
    · by_cases hiss : issuer = ([] : ByteStr)
      · simp [findEntryAux, hacc, hiss, List.findIdx?_cons, entryMatches]
      · by_cases hei : e.Issuer = issuer
        · simp [findEntryAux, hacc, hiss, hei, List.findIdx?_cons, entryMatches]
        · have hm : entryMatches name issuer e = false := by
            simp [entryMatches, hacc, hiss, hei]
          simp only [findEntryAux, hacc, if_true, hiss, if_false, hei,
            List.findIdx?_cons, hm, ih (k + 1)]
          cases h : rest.findIdx? (entryMatches name issuer) with
          | none => simp [h, hiss]
          | some m => simp [h, hiss, Nat.add_assoc, Nat.add_comm 1 m]
    · have hm : entryMatches name issuer e = false := by
        simp [entryMatches, hacc]
      simp only [findEntryAux, hacc, if_false, List.findIdx?_cons, hm, ih (k + 1)]
      cases h : rest.findIdx? (entryMatches name issuer) with
      | none => simp [h]
      | some m => simp [h, Nat.add_assoc, Nat.add_comm 1 m]

theorem FindEntry_eq (d : TOTPData) (name issuer : ByteStr) :
    FindEntry d name issuer =
      match d.Entries.findIdx? (entryMatches name issuer) with
      | some m => .ok m
      | none => .error .entryNotFound := by
  rw [FindEntry, findEntryAux_eq]
  cases d.Entries.findIdx? (entryMatches name issuer) <;> simp

theorem FindEntry_error_iff (d : TOTPData) (name issuer : ByteStr) :
    FindEntry d name issuer = .error .entryNotFound ↔
      ∀ e ∈ d.Entries, entryMatches name issuer e = false := by
  rw [FindEntry_eq]
  cases h : d.Entries.findIdx? (entryMatches name issuer) with
  | none =>
    simp only [List.findIdx?_eq_none_iff] at h
    simpa using h
  | some m =>
    simp only []
    constructor
    · intro hc; cases hc
    · intro hall
      exfalso
      rw [List.findIdx?_eq_some_iff_getElem] at h
      obtain ⟨hm, hp, -⟩ := h
      have := hall _ (List.getElem_mem hm)
      simp [this] at hp

theorem FindEntry_ok_iff (d : TOTPData) (name issuer : ByteStr) (j : Nat) :
    FindEntry d name issuer = .ok j ↔
      ∃ h : j < d.Entries.length,
        entryMatches name issuer d.Entries[j] = true ∧
        ∀ l, (hb : l < d.Entries.length) → l < j →
          entryMatches name issuer d.Entries[l] = false := by
  rw [FindEntry_eq]
  cases h : d.Entries.findIdx? (entryMatches name issuer) with
  | none =>
    simp only [List.findIdx?_eq_none_iff] at h
    simp only []
    constructor
    · intro hc; cases hc
    · rintro ⟨hj, hp, -⟩
      have := h _ (List.getElem_mem hj)
      simp [this] at hp
  | some m =>
    rw [List.findIdx?_eq_some_iff_getElem] at h
    obtain ⟨hm, hp, hbefore⟩ := h
    simp only [Except.ok.injEq]
    constructor
    · rintro rfl
      exact ⟨hm, hp, fun l hb hl => by simpa using hbefore l hl⟩
    · rintro ⟨hj, hpj, hbj⟩
      rcases Nat.lt_trichotomy m j with hlt | heq | hgt
      · have := hbj m hm hlt
        simp [this] at hp
      · omega
      · have := hbefore j hgt
        simp [hpj] at this

/-! ### Crypto-layer lemmas: AES-GCM seal/open inversion -/

theorem xorBytes_xorBytes (s b : ByteStr) (h : s.length ≤ b.length) :
    xorBytes (xorBytes s b) b = s := by
  induction s generalizing b with
  | nil => simp [xorBytes]
  | cons x xs ih =>
    cases b with
    | nil => simp at h
    | cons y ys =>
      simp only [xorBytes, List.zipWith_cons_cons, List.cons.injEq]
      refine ⟨?_, ih ys (by simpa using h)⟩
      show x ^^^ y ^^^ y = x
      rw [Nat.xor_assoc, Nat.xor_self, Nat.xor_zero]

theorem counterCrypt_nil (c : AESCipher) (ctr : ByteStr) :
    counterCrypt c ctr [] = [] := by
  rw [counterCrypt]; simp

theorem counterCrypt_length_aux (c : AESCipher) :
    ∀ (n : Nat) (src ctr : ByteStr), src.length ≤ n →
      (counterCrypt c ctr src).length = src.length := by
  intro n
  induction n with
  | zero =>
    intro src ctr h
    have : src = [] := by
      cases src with
      | nil => rfl
      | cons a l => simp at h
    subst this
    simp [counterCrypt_nil]
  | succ n ih =>
    intro src ctr h
    rw [counterCrypt]
    by_cases hs : src = []
    · simp [hs]
    · have hpos : 0 < src.length := List.length_pos.mpr hs
      have hrec := ih (src.drop 16) (gcmInc32 ctr) (by simp; omega)
      simp only [hs, if_false, List.length_append, length_xorBytes,
        List.length_take, length_encryptBlock, hrec, List.length_drop]
      omega

theorem counterCrypt_length (c : AESCipher) (ctr src : ByteStr) :
    (counterCrypt c ctr src).length = src.length :=
  counterCrypt_length_aux c src.length src ctr le_rfl

theorem counterCrypt_involution_aux (c : AESCipher) :
    ∀ (n : Nat) (src ctr : ByteStr), src.length ≤ n →
      counterCrypt c (gcmInc32 ctr) (counterCrypt c (gcmInc32 ctr) src) = src := by
  intro n
  induction n with
  | zero =>
    intro src ctr h
    have : src = [] := by
      cases src with
      | nil => rfl
      | cons a l => simp at h
    subst this
    simp [counterCrypt_nil]
  | succ n ih =>
    intro src ctr h
    by_cases hs : src = []
    · subst hs; simp [counterCrypt_nil]
    · have hpos : 0 < src.length := List.length_pos.mpr hs
      set B := encryptBlock c (gcmInc32 ctr) with hB
      set a := xorBytes (src.take 16) B with ha
      set b := counterCrypt c (gcmInc32 (gcmInc32 ctr)) (src.drop 16) with hb
      have hinner : counterCrypt c (gcmInc32 ctr) src = a ++ b := by
        rw [counterCrypt]
        simp only [hs, if_false, ha, hb, hB]
      rw [hinner]
      have haLen : a.length = min 16 src.length := by
        simp [ha, hB, List.length_take]
      have haNe : a ≠ [] := by
        intro hcon
        rw [hcon] at haLen
        simp at haLen
        omega
      have habNe : a ++ b ≠ [] := by
        intro hcon
        rcases List.append_eq_nil.mp hcon with ⟨h1, -⟩
        exact haNe h1
      rw [counterCrypt]
      simp only [habNe, if_false]
      by_cases hlen : 16 ≤ src.length
      · have ha16 : a.length = 16 := by omega
        have htake : (a ++ b).take 16 = a := by
          rw [← ha16]; exact List.take_left a b
        have hdrop : (a ++ b).drop 16 = b := by
          rw [← ha16]; exact List.drop_left a b
        rw [htake, hdrop, ha, ← hB]
        rw [xorBytes_xorBytes _ _ (by simp [hB, List.length_take])]
        rw [hb, ih (src.drop 16) (gcmInc32 ctr) (by simp; omega)]
        exact List.take_append_drop 16 src
      · have hsmall : src.length < 16 := by omega
        have hdropNil : src.drop 16 = [] := List.drop_eq_nil_of_le (by omega)
        have hbNil : b = [] := by rw [hb, hdropNil, counterCrypt_nil]
        have haSmall : a.length ≤ 16 := by omega
        have htake : (a ++ b).take 16 = a := by
          rw [hbNil, List.append_nil]
          exact List.take_of_length_le haSmall
        have hdrop : (a ++ b).drop 16 = [] := by
          rw [hbNil, List.append_nil]
          exact List.drop_eq_nil_of_le haSmall
        rw [htake, hdrop, counterCrypt_nil, List.append_nil, ha, ← hB]
        rw [xorBytes_xorBytes _ _ (by simp [hB, List.length_take])]
        exact List.take_of_length_le (by omega)

theorem counterCrypt_involution (c : AESCipher) (ctr src : ByteStr) :
    counterCrypt c (gcmInc32 ctr) (counterCrypt c (gcmInc32 ctr) src) = src :=
  counterCrypt_involution_aux c src.length src ctr le_rfl

theorem gcmTag_length (c : AESCipher) (nonce ct : ByteStr) :
    (gcmTag c nonce ct).length = 16 := by
  simp [gcmTag]

/-- Opening a freshly sealed payload succeeds and returns the
plaintext. -/
theorem gcmOpen_gcmSeal (c : AESCipher) (nonce pt : ByteStr) :
    gcmOpen c nonce (gcmSeal c nonce pt) = .ok pt := by
  unfold gcmSeal gcmOpen
  set j0 := nonce ++ [0, 0, 0, 1] with hj0
  set ct := counterCrypt c (gcmInc32 j0) pt with hct
  set tg := gcmTag c nonce ct with htg
  have htgLen : tg.length = 16 := gcmTag_length c nonce ct
  have hlen : (ct ++ tg).length = ct.length + 16 := by simp [htgLen]
  have hnotShort : ¬(ct ++ tg).length < 16 := by omega
  simp only [hnotShort, if_false, hlen]
  have hidx : ct.length + 16 - 16 = ct.length := by omega
  rw [hidx, List.drop_left, List.take_left]
  simp only [if_pos rfl]
  rw [hct, counterCrypt_involution]
  have hok : ¬(counterCrypt c (gcmInc32 j0) pt).length + 16 < 16 := by omega
  simp [hok]

/-- Encrypt-then-decrypt inversion with blob shape, for any legal AES
key length. -/
theorem Decrypt_Encrypt (src key : ByteStr) (stream : Nat → Nat)
    (h : key.length = 16 ∨ key.length = 24 ∨ key.length = 32) :
    ∃ blob, Encrypt src key stream = .ok blob ∧ Decrypt blob key = .ok src ∧
      blob.length = src.length + 28 := by
  have hcipher : aesNewCipher key =
      .ok ⟨aesExpandKey key, key.length / 4 + 6⟩ := by
    simp [aesNewCipher, h]
  set c : AESCipher := ⟨aesExpandKey key, key.length / 4 + 6⟩ with hc
  set nonce := drawNonce stream with hnonce
  have hnLen : nonce.length = 12 := length_drawNonce stream
  refine ⟨nonce ++ gcmSeal c nonce src, ?_, ?_, ?_⟩
  · rw [Encrypt, hcipher]
  · rw [Decrypt, hcipher]
    have hlen : (nonce ++ gcmSeal c nonce src).length =
        12 + (gcmSeal c nonce src).length := by simp [hnLen]
    have hnotShort : ¬(nonce ++ gcmSeal c nonce src).length < 12 := by omega
    simp only [hnotShort, if_false]
    have htake : (nonce ++ gcmSeal c nonce src).take 12 = nonce := by
      rw [← hnLen]; exact List.take_left nonce _
    have hdrop : (nonce ++ gcmSeal c nonce src).drop 12 = gcmSeal c nonce src := by
      rw [← hnLen]; exact List.drop_left nonce _
    rw [htake, hdrop, gcmOpen_gcmSeal]
  · have : (gcmSeal c nonce src).length = src.length + 16 := by
      simp [gcmSeal, counterCrypt_length, gcmTag_length]
    simp [hnLen, this]
    omega

/-! ### CBOR round-trip lemmas -/

theorem parseHead_encHead (m n : Nat) (r : ByteStr)
    (hn : n < 18446744073709551616) :
    parseHead (encHead m n ++ r) = .ok ((m, n), r) := by
  unfold encHead
  by_cases h1 : n < 24
  · have hd : (32 * m + n) / 32 = m := by omega
    have hmod : (32 * m + n) % 32 = n := by omega
    simp [h1, parseHead, hd, hmod]
  · by_cases h2 : n < 256
    · have hd : (32 * m + 24) / 32 = m := by omega
      have hmod : (32 * m + 24) % 32 = 24 := by omega
      simp [h1, h2, parseHead, hd, hmod]
    · by_cases h3 : n < 65536
      · have hd : (32 * m + 25) / 32 = m := by omega
        have hmod : (32 * m + 25) % 32 = 25 := by omega
        have hre : n / 256 * 256 + n % 256 = n := by omega
        simp [h1, h2, h3, parseHead, hd, hmod, hre]
      · by_cases h4 : n < 4294967296
        · have hd : (32 * m + 26) / 32 = m := by omega
          have hmod : (32 * m + 26) % 32 = 26 := by omega
          have hre : ((n / 16777216 * 256 + n / 65536 % 256) * 256 +
              n / 256 % 256) * 256 + n % 256 = n := by omega
          simp [h1, h2, h3, h4, parseHead, hd, hmod, hre]
        · have hd : (32 * m + 27) / 32 = m := by omega
          have hmod : (32 * m + 27) % 32 = 27 := by omega
          have hre : ((((((n / 72057594037927936 % 256 * 256 +
              n / 281474976710656 % 256) * 256 + n / 1099511627776 % 256) * 256 +
              n / 4294967296 % 256) * 256 + n / 16777216 % 256) * 256 +
              n / 65536 % 256) * 256 + n / 256 % 256) * 256 + n % 256 = n := by
            omega
          simp [h1, h2, h3, h4, parseHead, hd, hmod, hre]

theorem parseTextStr_encTextStr (s : ByteStr) (r : ByteStr) (h : ValidStr s) :
    parseTextStr (encTextStr s ++ r) = .ok (s, r) := by
  rw [encTextStr, List.append_assoc, parseTextStr,
    parseHead_encHead 3 s.length (s ++ r) h]
  have hlen : ¬(s ++ r).length < s.length := by simp
  simp [hlen, List.take_left, List.drop_left]

theorem parseUint64_encUint (n : Nat) (r : ByteStr)
    (h : n < 18446744073709551616) :
    parseUint64 (encUint n ++ r) = .ok (n, r) := by
  rw [encUint, parseUint64, parseHead_encHead 0 n r h]
  simp

theorem parseInt64_encInt (i : Int) (r : ByteStr)
    (h1 : -9223372036854775808 ≤ i) (h2 : i < 9223372036854775808) :
    parseInt64 (encInt i ++ r) = .ok (i, r) := by
  rw [encInt]
  by_cases hpos : 0 ≤ i
  · rw [if_pos hpos, parseInt64,
      parseHead_encHead 0 i.toNat r (by omega)]
    simp [Int.toNat_of_nonneg hpos]
  · rw [if_neg hpos, parseInt64,
      parseHead_encHead 1 (-1 - i).toNat r (by omega)]
    have hnn : (0 : Int) ≤ -1 - i := by omega
    simp [Int.toNat_of_nonneg hnn]

theorem parseFields_issuer (n : Nat) (acc : TOTPEntry) (s R : ByteStr)
    (hs : ValidStr s) :
    parseFields (n + 1) acc (encTextStr keyIssuer ++ (encTextStr s ++ R)) =
      parseFields n { acc with Issuer := s } R := by
  simp +decide only [parseFields, parseTextStr_encTextStr, setField, hs,
    if_true, if_false]

theorem parseFields_accountName (n : Nat) (acc : TOTPEntry) (s R : ByteStr)
    (hs : ValidStr s) :
    parseFields (n + 1) acc (encTextStr keyAccountName ++ (encTextStr s ++ R)) =
      parseFields n { acc with AccountName := s } R := by
  simp +decide only [parseFields, parseTextStr_encTextStr, setField, hs,
    if_true, if_false]

theorem parseFields_secret (n : Nat) (acc : TOTPEntry) (s R : ByteStr)
    (hs : ValidStr s) :
    parseFields (n + 1) acc (encTextStr keySecret ++ (encTextStr s ++ R)) =
      parseFields n { acc with Secret := s } R := by
  simp +decide only [parseFields, parseTextStr_encTextStr, setField, hs,
    if_true, if_false]

theorem parseFields_typ (n : Nat) (acc : TOTPEntry) (s R : ByteStr)
    (hs : ValidStr s) :
    parseFields (n + 1) acc (encTextStr keyType ++ (encTextStr s ++ R)) =
      parseFields n { acc with Typ := s } R := by
  simp +decide only [parseFields, parseTextStr_encTextStr, setField, hs,
    if_true, if_false]

theorem parseFields_period (n : Nat) (acc : TOTPEntry) (p : Nat) (R : ByteStr)
    (hp : p < 18446744073709551616) :
    parseFields (n + 1) acc (encTextStr keyPeriod ++ (encUint p ++ R)) =
      parseFields n { acc with Period := p } R := by
  simp +decide only [parseFields, parseTextStr_encTextStr, parseUint64_encUint,
    setField, hp, if_true, if_false]

theorem parseFields_digits (n : Nat) (acc : TOTPEntry) (i : Int) (R : ByteStr)
    (h1 : -9223372036854775808 ≤ i) (h2 : i < 9223372036854775808) :
    parseFields (n + 1) acc (encTextStr keyDigits ++ (encInt i ++ R)) =
      parseFields n { acc with Digits := i } R := by
  simp +decide only [parseFields, parseTextStr_encTextStr, parseInt64_encInt,
    setField, h1, h2, if_true, if_false]

theorem parseFields_algorithm (n : Nat) (acc : TOTPEntry) (s R : ByteStr)
    (hs : ValidStr s) :
    parseFields (n + 1) acc (encTextStr keyAlgorithm ++ (encTextStr s ++ R)) =
      parseFields n { acc with Algorithm := s } R := by
  simp +decide only [parseFields, parseTextStr_encTextStr, setField, hs,
    if_true, if_false]

theorem parseFields_url (n : Nat) (acc : TOTPEntry) (s R : ByteStr)
    (hs : ValidStr s) :
    parseFields (n + 1) acc (encTextStr keyURL ++ (encTextStr s ++ R)) =
      parseFields n { acc with URL := s } R := by
  simp +decide only [parseFields, parseTextStr_encTextStr, setField, hs,
    if_true, if_false]

/-- Parsing the encoding of one entry recovers the entry. -/
theorem parseEntry_encEntry (e : TOTPEntry) (r : ByteStr) (he : ValidEntry e) :
    parseEntry (encEntry e ++ r) = .ok (e, r) := by
  obtain ⟨h1, h2, h3, h4, h5, h6, h7, h8, h9⟩ := he
  rw [encEntry]
  simp only [List.append_assoc]
  rw [parseEntry, parseHead_encHead 5 8 _ (by omega)]
  simp only [if_pos rfl]
  rw [show (8 : Nat) = 7 + 1 from rfl, parseFields_issuer 7 _ _ _ h1,
    parseFields_accountName 6 _ _ _ h2, parseFields_secret 5 _ _ _ h3,
    parseFields_typ 4 _ _ _ h4, parseFields_period 3 _ _ _ h5,
    parseFields_digits 2 _ _ _ h6 h7, parseFields_algorithm 1 _ _ _ h8,
    parseFields_url 0 _ _ _ h9, parseFields]
  cases e
  simp [emptyEntry]

/-- Parsing the concatenated encodings of a list of entries recovers the
list. -/
theorem parseEntryList_encEntries (es : List TOTPEntry) (r : ByteStr)
    (he : ∀ e ∈ es, ValidEntry e) :
    parseEntryList es.length (encEntries es ++ r) = .ok (es, r) := by
  induction es with
  | nil => simp [encEntries, parseEntryList]
  | cons e rest ih =>
    have hone : ValidEntry e := he e (by simp)
    have hrest : ∀ x ∈ rest, ValidEntry x := fun x hx => he x (by simp [hx])
    simp only [encEntries, List.append_assoc, List.length_cons, parseEntryList]
    rw [parseEntry_encEntry e _ hone]
    simp [ih hrest]

/-- CBOR decode inverts CBOR encode on machine-bounded collections. -/
theorem cborDecode_cborEncode (d : TOTPData) (hd : ValidData d) :
    cborDecodeTOTPData (cborEncodeTOTPData d) = .ok d := by
  obtain ⟨hlen, hent⟩ := hd
  rw [cborEncodeTOTPData]
  simp only [List.append_assoc]
  rw [cborDecodeTOTPData, parseHead_encHead 5 1 _ (by omega)]
  simp only [if_pos (by exact ⟨rfl, rfl⟩ : (5 : Nat) = 5 ∧ (1 : Nat) = 1)]
  rw [parseTextStr_encTextStr keyEntries _ (by decide)]
  simp only [if_pos rfl]
  rw [show encHead 4 d.Entries.length ++ encEntries d.Entries =
      encHead 4 d.Entries.length ++ (encEntries d.Entries ++ []) by simp,
    parseHead_encHead 4 d.Entries.length _ hlen]
  simp only [if_pos rfl]
  rw [parseEntryList_encEntries d.Entries [] hent]
  simp

/-! ### Key-derivation lemmas: PBKDF2 output length -/

theorem pbkdf2Iter_fst_length (prf : ByteStr → ByteStr)
    (hprf : ∀ x, (prf x).length = 32) :
    ∀ (n : Nat) (t u : ByteStr), t.length = 32 →
      ((pbkdf2Iter prf n (t, u)).1).length = 32 := by
  intro n
  induction n with
  | zero => intro t u ht; simpa [pbkdf2Iter] using ht
  | succ n ih =>
    intro t u ht
    rw [pbkdf2Iter]
    exact ih _ _ (by simp [ht, hprf])

theorem pbkdf2Block_length (prf : ByteStr → ByteStr)
    (hprf : ∀ x, (prf x).length = 32) (salt : ByteStr) (iter idx : Nat) :
    (pbkdf2Block prf salt iter idx).length = 32 :=
  pbkdf2Iter_fst_length prf hprf (iter - 1) _ _ (hprf _)

theorem pbkdf2Blocks_length (prf : ByteStr → ByteStr)
    (hprf : ∀ x, (prf x).length = 32) (salt : ByteStr) (iter : Nat) :
    ∀ n, (pbkdf2Blocks prf salt iter n).length = 32 * n := by
  intro n
  induction n with
  | zero => simp [pbkdf2Blocks]
  | succ n ih =>
    simp [pbkdf2Blocks, ih, pbkdf2Block_length prf hprf]
    omega

/-- Totality of `DeriveKey`: it always returns exactly the requested number of bytes:
the totality half of the key-derivation contract. -/
theorem DeriveKey_length (password salt : ByteStr) (keyLen : Nat) :
    (DeriveKey password salt keyLen).length = keyLen := by
  rw [DeriveKey, pbkdf2]
  rw [List.length_take,
    pbkdf2Blocks_length _ (fun x => length_hmacSha256 password x) salt 4096]
  have hdm := Nat.div_add_mod (keyLen + 32 - 1) 32
  have hlt : (keyLen + 32 - 1) % 32 < 32 := Nat.mod_lt _ (by norm_num)
  omega

/-! ### Persistence round-trip -/

/-- Saving then loading with the same path, password and salt recovers
the collection. -/
theorem save_load_roundtrip (fs : FileSys) (filename : String) (d : TOTPData)
    (password salt : ByteStr) (stream : Nat → Nat) (hd : ValidData d) :
    ∃ fs', WriteCBORSec fs filename d password salt stream = .ok fs' ∧
      ReadCBORSec fs' filename password salt = .ok d := by
  have hkey : (DeriveKey password salt 32).length = 32 :=
    DeriveKey_length password salt 32
  obtain ⟨blob, hEnc, hDec, -⟩ :=
    Decrypt_Encrypt (cborEncodeTOTPData d) (DeriveKey password salt 32) stream
      (Or.inr (Or.inr hkey))
  refine ⟨fun p => if p = filename then some blob else fs p, ?_, ?_⟩
  · rw [WriteCBORSec]
    rw [hEnc]
    rfl
  · rw [ReadCBORSec]
    simp only [if_pos rfl, ite_true]
    rw [hDec]
    rw [show ((Except.ok (cborEncodeTOTPData d)).mapError
        DBError.cryptoErr : Except DBError ByteStr) =
      Except.ok (cborEncodeTOTPData d) from rfl]
    rw [show ((Except.ok (cborEncodeTOTPData d) : Except DBError ByteStr).bind
        fun data => (cborDecodeTOTPData data).mapError DBError.decodeErr) =
      (cborDecodeTOTPData (cborEncodeTOTPData d)).mapError DBError.decodeErr
      from rfl]
    rw [cborDecode_cborEncode d hd]
    rfl

/-! ### Store mutation lemmas and the uniqueness invariant -/

/-- Closed form of `AddEntry`: reject exactly when some existing entry
matches the new entry's composite key, else append. -/
theorem AddEntry_eq (d : TOTPData) (ent : TOTPEntry) :
    AddEntry d ent =
      if d.Entries.any (entryMatches ent.AccountName ent.Issuer) then
        (d, some .entryExists)
      else ({ Entries := d.Entries ++ [ent] }, none) := by
  rw [AddEntry, FindEntry_eq]
  cases h : d.Entries.findIdx? (entryMatches ent.AccountName ent.Issuer) with
  | none =>
    have hany : d.Entries.any (entryMatches ent.AccountName ent.Issuer) = false := by
      rw [List.any_eq_false]
      intro x hx
      simp [List.findIdx?_eq_none_iff.mp h x hx]
    simp [hany]
  | some m =>
    have hany : d.Entries.any (entryMatches ent.AccountName ent.Issuer) = true := by
      rw [List.any_eq_true]
      rw [List.findIdx?_eq_some_iff_getElem] at h
      obtain ⟨hm, hp, -⟩ := h
      exact ⟨_, List.getElem_mem hm, hp⟩
    simp [hany]

/-- A successful `RemoveEntry` deletes exactly the first matching
index. -/
theorem RemoveEntry_ok (d : TOTPData) (name issuer : ByteStr) (d' : TOTPData)
    (h : RemoveEntry d name issuer = .ok d') :
    ∃ j, FindEntry d name issuer = .ok j ∧
      d'.Entries = d.Entries.take j ++ d.Entries.drop (j + 1) := by
  rw [RemoveEntry] at h
  cases hf : FindEntry d name issuer with
  | error e => rw [hf] at h; cases h
  | ok j =>
    rw [hf] at h
    refine ⟨j, rfl, ?_⟩
    cases h
    rfl

/-- The per-pair uniqueness relation of the §3 invariant: two records
may share an account name and issuer only when that issuer is empty. -/
def Rdup (a b : TOTPEntry) : Prop :=
  a.AccountName = b.AccountName → a.Issuer = b.Issuer → a.Issuer = []

/-- The collection invariant: no two records share the same
(account_name, issuer) pair with non-empty issuer. -/
def UniqueKeys (d : TOTPData) : Prop := d.Entries.Pairwise Rdup

/-- Collections reachable from the empty collection by `AddEntry` and
`RemoveEntry` (in any outcome: a failed add leaves the data unchanged
and is covered because `AddEntry` returns the unchanged data). -/
inductive Reachable : TOTPData → Prop
  | empty : Reachable ⟨[]⟩
  | add (d : TOTPData) (ent : TOTPEntry) (d' : TOTPData) (err : Option StoreError) :
      Reachable d → AddEntry d ent = (d', err) → Reachable d'
  | remove (d : TOTPData) (name issuer : ByteStr) (d' : TOTPData) :
      Reachable d → RemoveEntry d name issuer = .ok d' → Reachable d'

/-- Both `AddEntry` outcomes preserve the invariant. -/
theorem uniqueKeys_add (d : TOTPData) (ent : TOTPEntry) (d' : TOTPData)
    (err : Option StoreError) (h : AddEntry d ent = (d', err))
    (hu : UniqueKeys d) : UniqueKeys d' := by
  rw [AddEntry_eq] at h
  by_cases hany : d.Entries.any (entryMatches ent.AccountName ent.Issuer) = true
  · rw [if_pos hany] at h
    have : d = d' := congrArg Prod.fst h
    exact this ▸ hu
  · rw [if_neg hany] at h
    have hd' : d'.Entries = d.Entries ++ [ent] := by
      have : ({ Entries := d.Entries ++ [ent] } : TOTPData) = d' :=
        congrArg Prod.fst h
      rw [← this]
    have h0 : d.Entries.any (entryMatches ent.AccountName ent.Issuer) = false := by
      simpa using hany
    have hnomatch : ∀ x ∈ d.Entries,
        entryMatches ent.AccountName ent.Issuer x = false := by
      intro x hx
      have := List.any_eq_false.mp h0 x hx
      simpa using this
    rw [UniqueKeys, hd', List.pairwise_append]
    refine ⟨hu, by simp, ?_⟩
    intro a ha b hb
    simp only [List.mem_singleton] at hb
    subst hb
    intro hacc hiss
    exfalso
    have := hnomatch a ha
    simp [entryMatches, hacc, hiss] at this

/-- Removal preserves the invariant (the result is a sublist). -/
theorem uniqueKeys_remove (d : TOTPData) (name issuer : ByteStr) (d' : TOTPData)
    (h : RemoveEntry d name issuer = .ok d') (hu : UniqueKeys d) :
    UniqueKeys d' := by
  obtain ⟨j, -, hd'⟩ := RemoveEntry_ok d name issuer d' h
  have hsub : List.Sublist d'.Entries d.Entries := by
    rw [hd', ← List.eraseIdx_eq_take_drop_succ]
    exact List.eraseIdx_sublist d.Entries j
  exact hu.sublist hsub

/-- Every reachable collection satisfies the uniqueness invariant. -/
theorem reachable_uniqueKeys (d : TOTPData) (h : Reachable d) : UniqueKeys d := by
  induction h with
  | empty => simp [UniqueKeys]
  | add d0 ent d' err hr heq ih => exact uniqueKeys_add d0 ent d' err heq ih
  | remove d0 name issuer d' hr heq ih =>
    exact uniqueKeys_remove d0 name issuer d' heq ih

/-- When the removed record was the only match, a subsequent find
reports not-found. -/
theorem remove_then_find_notFound (d : TOTPData) (a i : ByteStr) (d' : TOTPData)
    (hrem : RemoveEntry d a i = .ok d')
    (huniq : d.Entries.countP (entryMatches a i) ≤ 1) :
    FindEntry d' a i = .error .entryNotFound := by
  obtain ⟨j, hfind, hd'⟩ := RemoveEntry_ok d a i d' hrem
  rw [FindEntry_ok_iff] at hfind
  obtain ⟨hj, hmatch, -⟩ := hfind
  have hsplit : d.Entries.countP (entryMatches a i) =
      (d.Entries.take j).countP (entryMatches a i) +
        ((d.Entries.drop (j + 1)).countP (entryMatches a i) + 1) := by
    conv_lhs => rw [← List.take_append_drop j d.Entries]
    rw [List.countP_append, List.drop_eq_getElem_cons hj, List.countP_cons, hmatch]
    simp
  have htake : (d.Entries.take j).countP (entryMatches a i) = 0 := by omega
  have hdrop : (d.Entries.drop (j + 1)).countP (entryMatches a i) = 0 := by omega
  rw [FindEntry_error_iff, hd']
  intro e he
  rcases List.mem_append.mp he with h1 | h1
  · simpa using List.countP_eq_zero.mp htake e h1
  · simpa using List.countP_eq_zero.mp hdrop e h1

/-! ### Decrypt failure characterization -/

/-- The AES-GCM cipher instance `Decrypt` and `Encrypt` build from a
legal key. -/
def gcmKeyCipher (key : ByteStr) : AESCipher :=
  ⟨aesExpandKey key, key.length / 4 + 6⟩

/-- The tag-verification condition of `gcmOpen` on the blob `src` as
`Decrypt` splits it: the part after the 12-byte nonce holds at least a
16-byte tag, and the recomputed tag over the ciphertext equals it. -/
def TagMatches (key src : ByteStr) : Prop :=
  16 ≤ (src.drop 12).length ∧
    gcmTag (gcmKeyCipher key) (src.take 12)
        ((src.drop 12).take ((src.drop 12).length - 16)) =
      (src.drop 12).drop ((src.drop 12).length - 16)

/-- Full failure characterization of `Decrypt`: the too-short case (and
only it) reports the dedicated `"ciphertext too short"` error; every
tag-verification failure (and only those) reports the single AEAD
authentication-failure error; all other inputs decrypt successfully. -/
def DecryptErrorSpec (key src : ByteStr) : Prop :=
  (Decrypt src key = .error .ciphertextTooShort ↔ src.length < 12) ∧
  (Decrypt src key = .error .msgAuthFailed ↔
    12 ≤ src.length ∧ ¬TagMatches key src) ∧
  ((∃ pt, Decrypt src key = .ok pt) ↔ 12 ≤ src.length ∧ TagMatches key src)

theorem decrypt_error_spec (key src : ByteStr) (h : key.length = 32) :
    DecryptErrorSpec key src := by
  have hcipher : aesNewCipher key = .ok (gcmKeyCipher key) := by
    simp [aesNewCipher, h, gcmKeyCipher]
  have hD : Decrypt src key =
      if src.length < 12 then .error .ciphertextTooShort
      else gcmOpen (gcmKeyCipher key) (src.take 12) (src.drop 12) := by
    rw [Decrypt, hcipher]
  rw [DecryptErrorSpec, hD]
  by_cases hlen : src.length < 12
  · have hnm : ¬TagMatches key src := by
      rw [TagMatches]
      intro hcon
      have := hcon.1
      simp only [List.length_drop] at this
      omega
    simp only [hlen, if_true]
    refine ⟨by simp [hlen], ?_, ?_⟩
    · simp [hlen]
    · simp [hlen]
  · simp only [hlen, if_false]
    rw [gcmOpen]
    by_cases h16 : (src.drop 12).length < 16
    · have hnm : ¬TagMatches key src := by
        rw [TagMatches]
        intro hcon
        omega
      rw [if_pos h16]
      refine ⟨by simp [hlen], ?_, ?_⟩
      · exact ⟨fun _ => ⟨by omega, hnm⟩, fun _ => rfl⟩
      · simp [hnm]
    · rw [if_neg h16]
      by_cases htag : gcmTag (gcmKeyCipher key) (src.take 12)
          ((src.drop 12).take ((src.drop 12).length - 16)) =
          (src.drop 12).drop ((src.drop 12).length - 16)
      · have hm : TagMatches key src := ⟨by omega, htag⟩
        rw [if_pos htag]
        refine ⟨by simp [hlen], ?_, ?_⟩
        · simp [hm]
        · exact ⟨fun _ => ⟨by omega, hm⟩, fun _ => ⟨_, rfl⟩⟩
      · have hnm : ¬TagMatches key src := fun hc => htag hc.2
        rw [if_neg htag]
        refine ⟨by simp [hlen], ?_, ?_⟩
        · exact ⟨fun _ => ⟨by omega, hnm⟩, fun _ => rfl⟩
        · simp [hnm]

/-! ### Encrypt characterization -/

/-- Success of `Encrypt` happens exactly for the three legal AES key lengths. -/
theorem Encrypt_isOk (src key : ByteStr) (stream : Nat → Nat) :
    (Encrypt src key stream).isOk =
      decide (key.length = 16 ∨ key.length = 24 ∨ key.length = 32) := by
  by_cases h : key.length = 16 ∨ key.length = 24 ∨ key.length = 32
  · have hcipher : aesNewCipher key =
        .ok ⟨aesExpandKey key, key.length / 4 + 6⟩ := by
      simp [aesNewCipher, h]
    rw [Encrypt, hcipher]
    simp [h, Except.isOk, Except.toBool]
  · have hcipher : aesNewCipher key = .error .invalidKeySize := by
      simp [aesNewCipher, h]
    rw [Encrypt, hcipher]
    simp [h, Except.isOk, Except.toBool]

/-- The exact shape of a successful encryption: random nonce, then the
CTR ciphertext, then the GCM tag. -/
theorem Encrypt_shape (src key : ByteStr) (stream : Nat → Nat)
    (h : key.length = 32) :
    Encrypt src key stream = .ok (drawNonce stream ++
      (counterCrypt (gcmKeyCipher key)
          (gcmInc32 (drawNonce stream ++ [0, 0, 0, 1])) src ++
        gcmTag (gcmKeyCipher key) (drawNonce stream)
          (counterCrypt (gcmKeyCipher key)
            (gcmInc32 (drawNonce stream ++ [0, 0, 0, 1])) src))) := by
  have hcipher : aesNewCipher key = .ok (gcmKeyCipher key) := by
    simp [aesNewCipher, h, gcmKeyCipher]
  rw [Encrypt, hcipher]
  rfl

/-- Splitting in `Decrypt`: exactly the first 12 bytes are the nonce and
opens the remainder. -/
theorem Decrypt_split (key nonce rest : ByteStr) (h : key.length = 32)
    (hn : nonce.length = 12) :
    Decrypt (nonce ++ rest) key = gcmOpen (gcmKeyCipher key) nonce rest := by
  have hcipher : aesNewCipher key = .ok (gcmKeyCipher key) := by
    simp [aesNewCipher, h, gcmKeyCipher]
  rw [Decrypt, hcipher]
  have hlen : ¬(nonce ++ rest).length < 12 := by simp [hn]
  simp only [hlen, if_false]
  have htake : (nonce ++ rest).take 12 = nonce := by
    rw [← hn]; exact List.take_left nonce rest
  have hdrop : (nonce ++ rest).drop 12 = rest := by
    rw [← hn]; exact List.drop_left nonce rest
  rw [htake, hdrop]

/-- The overall shape of one encryption and of decryption's split, as
claimed by the on-disk format: random 12-byte nonce prefix, ciphertext
of the plaintext's length, 16-byte tag — a blob 28 bytes longer than the
plaintext — and `Decrypt` takes exactly the first 12 bytes of its input
as the nonce. -/
def EncryptBlobShape (src key : ByteStr) (stream : Nat → Nat) : Prop :=
  ∃ ct tag, Encrypt src key stream = .ok (drawNonce stream ++ (ct ++ tag)) ∧
    (drawNonce stream).length = 12 ∧ ct.length = src.length ∧
    tag.length = 16 ∧
    (drawNonce stream ++ (ct ++ tag)).length = src.length + 28 ∧
    ∀ nonce rest, nonce.length = 12 →
      Decrypt (nonce ++ rest) key = gcmOpen (gcmKeyCipher key) nonce rest

/-! ### Concrete data for witnesses and counterexamples -/

/-- Entry with issuer "A" and account name "a". -/
def entA : TOTPEntry := ⟨[65], [97], [], [], 30, 6, [], []⟩

/-- Entry with issuer "B" and the same account name "a". -/
def entB : TOTPEntry := ⟨[66], [97], [], [], 30, 6, [], []⟩

/-- A one-entry collection. -/
def dataA : TOTPData := ⟨[entA]⟩

/-- A collection with two entries sharing the account name under
different issuers (reachable by two successful adds). -/
def dataAB : TOTPData := ⟨[entA, entB]⟩

/-- A concrete 32-byte key. -/
def key32 : ByteStr := List.range 32

/-! ### The claims -/

/-- Claim C1: for every file system state, path, password, salt,
random stream and (machine-bounded) collection `C`, saving with
`WriteCBORSec` and loading back with `ReadCBORSec` under the same
password and salt succeeds and returns a collection equal to `C` field
for field, record order preserved (equality of `TOTPData` values). -/
theorem claim_C1_save_load_roundtrip (fs : FileSys) (path : String)
    (C : TOTPData) (password salt : ByteStr) (stream : Nat → Nat)
    (h : ValidData C) :
    ∃ fs', WriteCBORSec fs path C password salt stream = .ok fs' ∧
      ReadCBORSec fs' path password salt = .ok C :=
  save_load_roundtrip fs path C password salt stream h

/-- Witness for C1: the round trip at a concrete two-entry collection. -/
theorem claim_C1_witness :
    ValidData dataAB ∧
      ∃ fs', WriteCBORSec (fun _ => none) "totp.db" dataAB [1, 2] [3]
          (fun i => i) = .ok fs' ∧
        ReadCBORSec fs' "totp.db" [1, 2] [3] = .ok dataAB :=
  ⟨by decide, claim_C1_save_load_roundtrip (fun _ => none) "totp.db" dataAB
    [1, 2] [3] (fun i => i) (by decide)⟩

/-- Counterexample to Claim C2 as stated: the reported failure is not a
single undifferentiated cause — a too-short blob reports the dedicated
`"ciphertext too short"` error while a tag-verification failure reports
the distinct AEAD authentication error, so the too-short case is
distinguishable from the corrupted-data case. -/
theorem claim_C2_counterexample :
    Decrypt [] key32 = .error .ciphertextTooShort ∧
      Decrypt (List.replicate 13 0) key32 = .error .msgAuthFailed ∧
      CryptoError.ciphertextTooShort ≠ CryptoError.msgAuthFailed := by
  refine ⟨by decide, by decide, by decide⟩

/-- Claim C2 amended: for every 32-byte key and blob, `Decrypt` fails
exactly when the blob is shorter than the 12-byte nonce or the AEAD tag
does not verify; every tag failure (wrong key or corrupted data alike)
collapses to the one authentication-failure error, while the too-short
case reports its own distinct error. -/
theorem claim_C2_amended (key src : ByteStr) (h : key.length = 32) :
    DecryptErrorSpec key src :=
  decrypt_error_spec key src h

/-- Witness for C2 at a concrete key and blob. -/
theorem claim_C2_witness :
    key32.length = 32 ∧ DecryptErrorSpec key32 (List.replicate 13 0) :=
  ⟨by decide, claim_C2_amended key32 (List.replicate 13 0) (by decide)⟩

/-- Counterexample to Claim C3 as stated: on the collection
`[{issuer A, account a}, {issuer B, account a}]`, `remove("a", "")`
succeeds, yet `find("a", "")` on the result still finds an entry (index
0), not NotFound — the empty-issuer probe matches the second record. -/
theorem claim_C3_counterexample :
    RemoveEntry dataAB [97] [] = .ok ⟨[entB]⟩ ∧
      FindEntry (⟨[entB]⟩ : TOTPData) [97] [] = .ok 0 ∧
      (Except.ok 0 : Except StoreError Nat) ≠ .error .entryNotFound := by
  refine ⟨by decide, by decide, by decide⟩

/-- Claim C3 amended: if `remove(a, i)` succeeds and the collection
held at most one record matching `(a, i)` under the lookup rule, then a
subsequent `find(a, i)` returns NotFound. -/
theorem claim_C3_amended (d : TOTPData) (a i : ByteStr) (d' : TOTPData)
    (hrem : RemoveEntry d a i = .ok d')
    (huniq : d.Entries.countP (entryMatches a i) ≤ 1) :
    FindEntry d' a i = .error .entryNotFound :=
  remove_then_find_notFound d a i d' hrem huniq

/-- Witness for C3 at a concrete one-entry collection. -/
theorem claim_C3_witness :
    RemoveEntry dataA [97] [65] = .ok ⟨[]⟩ ∧
      dataA.Entries.countP (entryMatches [97] [65]) ≤ 1 ∧
      FindEntry (⟨[]⟩ : TOTPData) [97] [65] = .error .entryNotFound :=
  ⟨by decide, by decide,
    claim_C3_amended dataA [97] [65] ⟨[]⟩ (by decide) (by decide)⟩

/-- Claim C4: `AddEntry` returns AlreadyExists and leaves the
collection unchanged exactly when some existing record matches the new
record's (account_name, issuer) key under the empty-issuer-matches-any
rule; otherwise it succeeds and appends the record at the end. -/
theorem claim_C4_add_duplicate (d : TOTPData) (ent : TOTPEntry) :
    AddEntry d ent =
      if d.Entries.any (entryMatches ent.AccountName ent.Issuer) then
        (d, some .entryExists)
      else ({ Entries := d.Entries ++ [ent] }, none) :=
  AddEntry_eq d ent

/-- Claim C5: every collection reachable from the empty collection by
`AddEntry` and `RemoveEntry` satisfies the invariant that no two
records share the same (account_name, issuer) pair with non-empty
issuer; and `AddEntry`'s duplicate detection fires exactly when
`FindEntry` on the probe's own key succeeds. -/
theorem claim_C5_invariant :
    (∀ d, Reachable d → UniqueKeys d) ∧
      ∀ (d : TOTPData) (ent : TOTPEntry),
        (AddEntry d ent).2 = some .entryExists ↔
          FindEntry d ent.AccountName ent.Issuer ≠ .error .entryNotFound := by
  constructor
  · exact fun d h => reachable_uniqueKeys d h
  · intro d ent
    rw [AddEntry_eq]
    by_cases hany : d.Entries.any (entryMatches ent.AccountName ent.Issuer) = true
    · rw [if_pos hany]
      simp only [Prod.snd]
      constructor
      · intro _ hcon
        rw [FindEntry_error_iff] at hcon
        rw [List.any_eq_true] at hany
        obtain ⟨x, hx, hpx⟩ := hany
        simp [hcon x hx] at hpx
      · intro _; trivial
    · rw [if_neg hany]
      simp only [Prod.snd]
      constructor
      · intro hcon; cases hcon
      · intro hne
        exfalso
        apply hne
        rw [FindEntry_error_iff]
        intro e he
        have := List.any_eq_false.mp (by simpa using hany) e he
        simpa using this

/-- Witness for C5: the invariant at a concrete collection reached by
two successful adds. -/
theorem claim_C5_witness : UniqueKeys dataAB :=
  claim_C5_invariant.1 dataAB
    (Reachable.add ⟨[entA]⟩ entB dataAB none
      (Reachable.add ⟨[]⟩ entA ⟨[entA]⟩ none Reachable.empty (by decide))
      (by decide))

/-- Claim C7: `Encrypt` returns a result (rather than an error) exactly
for the legal AES key lengths 16, 24 and 32 — in particular it never
fails for a 32-byte key, and every failure is a wrong-key-length
failure. -/
theorem claim_C7_encrypt_failure (src key : ByteStr) (stream : Nat → Nat) :
    (Encrypt src key stream).isOk =
      decide (key.length = 16 ∨ key.length = 24 ∨ key.length = 32) :=
  Encrypt_isOk src key stream

/-- Claim C8: `find(a, "")` returns the index of the first record in
insertion order whose account name is `a`, regardless of issuer, and
NotFound exactly when no record has account name `a`. -/
theorem claim_C8_find_empty_issuer (d : TOTPData) (a : ByteStr) :
    (∀ j, FindEntry d a [] = .ok j ↔
      ∃ h : j < d.Entries.length, d.Entries[j].AccountName = a ∧
        ∀ l, (hb : l < d.Entries.length) → l < j →
          d.Entries[l].AccountName ≠ a) ∧
    (FindEntry d a [] = .error .entryNotFound ↔
      ∀ e ∈ d.Entries, e.AccountName ≠ a) := by
  constructor
  · intro j
    rw [FindEntry_ok_iff]
    constructor
    · rintro ⟨hj, hm, hb⟩
      refine ⟨hj, by simpa [entryMatches] using hm, ?_⟩
      intro l hbl hl
      have := hb l hbl hl
      simpa [entryMatches] using this
    · rintro ⟨hj, hm, hb⟩
      refine ⟨hj, by simp [entryMatches, hm], ?_⟩
      intro l hbl hl
      have := hb l hbl hl
      simp [entryMatches, this]
  · rw [FindEntry_error_iff]
    constructor
    · intro hall e he
      have := hall e he
      simpa [entryMatches] using this
    · intro hall e he
      simp [entryMatches, hall e he]

/-- Claim C9: `DeriveKey` is PBKDF2 with iteration count 4096 and
HMAC-SHA-256 as the pseudorandom function, and it is total and
deterministic: a pure function returning exactly `keyLen` bytes for
every input. -/
theorem claim_C9_derive_key (password salt : ByteStr) (keyLen : Nat) :
    DeriveKey password salt keyLen =
      pbkdf2 (hmacSha256 password) salt 4096 keyLen 32 ∧
    (DeriveKey password salt keyLen).length = keyLen :=
  ⟨rfl, DeriveKey_length password salt keyLen⟩

/-- Claim C10: for a 32-byte key, a successful encryption is
`nonce ‖ ciphertext ‖ tag` with a 12-byte nonce from the random source,
ciphertext as long as the plaintext and a 16-byte tag — 28 bytes of
overhead — and `Decrypt` splits off exactly the first 12 bytes of its
input as the nonce. -/
theorem claim_C10_blob_shape (src key : ByteStr) (stream : Nat → Nat)
    (h : key.length = 32) : EncryptBlobShape src key stream := by
  refine ⟨counterCrypt (gcmKeyCipher key)
      (gcmInc32 (drawNonce stream ++ [0, 0, 0, 1])) src,
    gcmTag (gcmKeyCipher key) (drawNonce stream)
      (counterCrypt (gcmKeyCipher key)
        (gcmInc32 (drawNonce stream ++ [0, 0, 0, 1])) src),
    Encrypt_shape src key stream h, length_drawNonce stream,
    counterCrypt_length _ _ _, gcmTag_length _ _ _, ?_,
    fun nonce rest hn => Decrypt_split key nonce rest h hn⟩
  simp [counterCrypt_length, gcmTag_length]
  omega

/-- Witness for C10 at a concrete key, plaintext and stream. -/
theorem claim_C10_witness :
    key32.length = 32 ∧ EncryptBlobShape [5, 6, 7] key32 (fun i => i) :=
  ⟨by decide, claim_C10_blob_shape [5, 6, 7] key32 (fun i => i) (by decide)⟩

end TotpDB
